/-
  Verification of the wlim target-discovery and selection engine
  (src/wlim.c) against its natural-language specification.

  Strings from the C code are modelled as `List Char` (the characters
  before the terminating NUL; modelled strings contain no NUL).
  C `int` is modelled as `Int` (no overflow is reachable at the
  magnitudes the program handles); C `double` arithmetic in the grid
  layout is modelled as exact rational arithmetic with truncation
  toward zero for the final `(int)` cast.
-/
import Mathlib

namespace Wlim

/-! ## FieldExtractor (json helpers, src/wlim.c lines 132-183) -/

/-- C `isspace` in the default locale, as used by `atoi`. -/
def isSpaceC (c : Char) : Bool :=
  c = ' ' || c = '\t' || c = '\n' || c = '\x0b' || c = '\x0c' || c = '\r'

/-- Value of the leading digit run, accumulated like `atoi`'s loop. -/
def digitsVal (s : List Char) : Int :=
  (s.takeWhile Char.isDigit).foldl (fun a c => a * 10 + ((c.toNat - 48 : Nat) : Int)) 0

/-- C `atoi`: skip whitespace, optional sign, then leading digits
(empty digit run gives 0).  Overflow is not modelled. -/
def atoi (s : List Char) : Int :=
  let t := s.dropWhile isSpaceC
  match t with
  | '-' :: rest => - digitsVal rest
  | '+' :: rest => digitsVal rest
  | _ => digitsVal t

/-- C `strstr h n`: the suffix of `h` starting at the first occurrence
of `n`, or `none`. -/
def strstr (hay needle : List Char) : Option (List Char) :=
  if needle.isPrefixOf hay then some hay
  else
    match hay with
    | [] => none
    | _ :: t => strstr t needle

/-- `json_int` (src/wlim.c:132): find `"key":`, skip spaces and tabs,
`atoi` the rest; `def` if the pattern is absent.  The C code builds the
pattern in a 128-byte buffer; that truncation is not modelled (all keys
the program uses are far shorter). -/
def json_int (j key : List Char) (d : Int) : Int :=
  let pat := '"' :: key ++ ['"', ':']
  match strstr j pat with
  | none => d
  | some p =>
    let q := (p.drop pat.length).dropWhile (fun c => c = ' ' || c = '\t')
    atoi q

/-! ## Label generation (`generate_labels`, src/wlim.c:287-305) -/

/-- The base-26 digit string of `v`, most significant first, padded to
width `L` — exactly what the C loop `for (j = len-1; j >= 0; j--)
{ label[j] = 'a' + v%26; v /= 26; }` writes. -/
def lab26 : Nat → Nat → List Nat
  | 0, _ => []
  | L + 1, v => lab26 L (v / 26) ++ [v % 26]

/-- The `while (p < n) { len++; p *= 26; }` loop of `generate_labels`.
The extra `0 < p` conjunct only serves termination: the loop is entered
with `p = 26` and `p` only ever gets multiplied by 26, so it never
changes the result on reachable inputs. -/
def lenLoop (n : Nat) (len p : Nat) : Nat :=
  if h : p < n ∧ 0 < p then lenLoop n (len + 1) (p * 26) else len
termination_by n - p
decreasing_by
  have h1 : p < n := h.1
  have h2 : 0 < p := h.2
  omega

/-- Label width chosen by `generate_labels` for `n > 26`. -/
def labelLen (n : Nat) : Nat := lenLoop n 1 26

/-- The label `generate_labels` assigns to index `i` out of `n`
targets, as a digit list (digit `d` prints as `'a' + d`). -/
def labelDigits (n i : Nat) : List Nat :=
  if n ≤ 26 then [i] else lab26 (labelLen n) i

/-- The label as characters. -/
def labelOf (n i : Nat) : List Char :=
  (labelDigits n i).map (fun d => Char.ofNat (97 + d))

/-! ## Title similarity (`titles_match`, src/wlim.c:235-248) -/

/-- The `while (common < la && common < lb && a[common] == b[common])
common++;` loop of `titles_match`. -/
def commonPrefixLen : List Char → List Char → Nat
  | a :: as_, b :: bs => if a = b then commonPrefixLen as_ bs + 1 else 0
  | _, _ => 0

/-- `titles_match` (src/wlim.c:235): substring containment either way,
or shorter-is-prefix with min length > 10, or common leading run ≥ 20. -/
def titles_match (a b : List Char) : Bool :=
  if a = [] || b = [] then false
  else if (strstr a b).isSome || (strstr b a).isSome then true
  else
    let la := a.length
    let lb := b.length
    let mn := if la < lb then la else lb
    if decide (mn > 10) && decide (a.take mn = b.take mn) then true
    else if commonPrefixLen a b ≥ 20 then true
    else false

/-! ## Brace-delimited blocks (`find_block_end`, src/wlim.c:190-201) -/

/-- Scanner loop of `find_block_end`: index of the `'}'` that closes
the first top-level brace group, counting depth outside quoted strings
and skipping backslash escapes inside them.  C's `in_str` starts
false and `depth` starts 0 at the character the caller points at. -/
def fbeGo : List Char → Int → Bool → Nat → Option Nat
  | [], _, _, _ => none
  | c :: rest, depth, instr, idx =>
    if c = '\\' && instr then
      match rest with
      | [] => none
      | _ :: rest2 => fbeGo rest2 depth instr (idx + 2)
    else if c = '"' then fbeGo rest depth (!instr) (idx + 1)
    else if instr then fbeGo rest depth instr (idx + 1)
    else if c = '{' then fbeGo rest (depth + 1) instr (idx + 1)
    else if c = '}' then
      if depth - 1 = 0 then some idx else fbeGo rest (depth - 1) instr (idx + 1)
    else fbeGo rest depth instr (idx + 1)

/-- `find_block_end` from the start of a candidate block: the index of
the matching close brace, or `none`. -/
def find_block_end (s : List Char) : Option Nat := fbeGo s 0 false 0

/-- The `while ((p = strchr(p, '{')))` block-extraction loop shared by
`find_client_geom`, `find_client_geom_by_title` and
`get_screen_bounds`: each iteration takes the text from the next `'{'`
through its matching `'}'` as one block and resumes after it. -/
def splitBlocks (s : List Char) : List (List Char) :=
  match hd : s.dropWhile (fun c => c ≠ '{') with
  | [] => []
  | c :: cs =>
    match find_block_end (c :: cs) with
    | none => []
    | some idx => (c :: cs).take (idx + 1) :: splitBlocks ((c :: cs).drop (idx + 1))
termination_by s.length
decreasing_by
  have ht : (c :: cs).length ≤ s.length := by
    have := (List.dropWhile_sublist (l := s) (fun c => c ≠ '{')).length_le
    rw [hd] at this
    exact this
  simp only [List.length_drop, List.length_cons] at *
  omega

/-! ## Screen bounds (`get_screen_bounds`, src/wlim.c:483-515) and the
click clamp (`do_click`, src/wlim.c:569-573) -/

/-- One step of the `if (mx + mw > max_x) max_x = mx + mw;` maximum
accumulation over monitor blocks. -/
def boundsStep (acc : Int × Int) (b : List Char) : Int × Int :=
  let mx := json_int b "x".toList 0
  let my := json_int b "y".toList 0
  let mw := json_int b "width".toList 0
  let mh := json_int b "height".toList 0
  (if mx + mw > acc.1 then mx + mw else acc.1,
   if my + mh > acc.2 then my + mh else acc.2)

/-- `get_screen_bounds`: union extent of the monitor feed's rectangles,
each axis falling back to 1920 resp. 1080 when the feed is absent
(`hyprctl_request` returned NULL) or that axis's extent is not
positive. -/
def get_screen_bounds (feed : Option (List Char)) : Int × Int :=
  match feed with
  | none => (1920, 1080)
  | some json =>
    let m := (splitBlocks json).foldl boundsStep (0, 0)
    (if m.1 > 0 then m.1 else 1920, if m.2 > 0 then m.2 else 1080)

/-- The coordinate clamp in `do_click` (src/wlim.c:569-573). -/
def clampPos (sw sh x y : Int) : Int × Int :=
  let x1 := if x < 0 then 0 else x
  let y1 := if y < 0 then 0 else y
  let x2 := if x1 ≥ sw then sw - 1 else x1
  let y2 := if y1 ≥ sh then sh - 1 else y1
  (x2, y2)

/-- The pointer position `do_click` emits (`EV_ABS` events at
src/wlim.c:579-580) for a requested click point, given the monitor
feed. -/
def do_click_pos (feed : Option (List Char)) (x y : Int) : Int × Int :=
  let b := get_screen_bounds feed
  clampPos b.1 b.2 x y

/-! ## AccessibilityCollector (`is_duplicate` and `walk`,
src/wlim.c:312-364) -/

/-- Raw element bounds as reported by AT-SPI (`Target.x/y/w/h`). -/
structure RawT where
  x : Int
  y : Int
  w : Int
  h : Int
deriving DecidableEq, Repr

/-- `is_duplicate` (src/wlim.c:312): scan only the last 10 accepted
candidates (`for (i = n-1; i >= 0 && i >= n-10; i--)`); duplicate iff
both axis deltas are ≤ 4. -/
def is_duplicate (out : List RawT) (x y : Int) : Bool :=
  (out.drop (out.length - 10)).any fun t =>
    decide ((t.x - x).natAbs ≤ 4) && decide ((t.y - y).natAbs ≤ 4)

/-- The AT-SPI role constants listed in `init_clickable_lut`
(src/wlim.c:40-49), with the numeric values of the `AtspiRole` enum:
PUSH_BUTTON, TOGGLE_BUTTON, CHECK_BOX, RADIO_BUTTON, MENU_ITEM, LINK,
PAGE_TAB, COMBO_BOX, ENTRY, SPIN_BUTTON, SLIDER, ICON, LIST_ITEM,
TABLE_CELL, TREE_ITEM, TOOL_BAR, TEXT, DOCUMENT_WEB. -/
def clickableRoles : List Nat :=
  [43, 62, 7, 44, 35, 88, 37, 11, 79, 52, 51, 26, 32, 56, 91, 63, 61, 95]

/-- `clickable_lut` lookup guarded by `(int)role < 256`
(src/wlim.c:338). -/
def clickable (role : Nat) : Bool :=
  decide (role < 256) && clickableRoles.contains role

/-- An accessible-tree node as `walk` queries it.  Each query the C
code makes through a fallible AT-SPI call is an `Option`: `role` is
`none` when `atspi_accessible_get_role` sets an error, `states` is
`none` when `atspi_accessible_get_state_set` returns NULL, and `ext`
is `none` when the component interface is missing or
`atspi_component_get_extents` fails.  Children are the non-NULL
children in order. -/
inductive ATNode where
  | node (role : Option Nat) (states : Option (Bool × Bool)) (ext : Option RawT)
      (children : List ATNode)

def ATNode.role : ATNode → Option Nat
  | .node r _ _ _ => r

def ATNode.states : ATNode → Option (Bool × Bool)
  | .node _ s _ _ => s

def ATNode.ext : ATNode → Option RawT
  | .node _ _ e _ => e

def ATNode.children : ATNode → List ATNode
  | .node _ _ _ c => c

mutual

/-- `walk` (src/wlim.c:321): depth ceiling 30, target ceiling 1024; a
role-query error jumps straight to the children (`goto kids`); at
depth > 0 a node whose state set resolved but lacks VISIBLE+SHOWING is
pruned with its subtree (a NULL state set skips this check); a node
with a clickable role, a resolved extent of positive area, and no
near-duplicate among the last 10 accepted is collected; then children
are walked at depth + 1. -/
def walk (nd : ATNode) (out : List RawT) (depth : Nat) : List RawT :=
  if depth > 30 || out.length ≥ 1024 then out
  else
    match nd with
    | .node role states ext children =>
      match role with
      | none => walkKids children out depth
      | some r =>
        if decide (depth > 0) &&
            (match states with
             | some (v, s) => !(v && s)
             | none => false) then out
        else
          let out2 :=
            if clickable r then
              match ext with
              | some e =>
                if e.w > 0 && e.h > 0 && !is_duplicate out e.x e.y
                then out ++ [e] else out
              | none => out
            else out
          walkKids children out2 depth

/-- The `for (i = 0; i < nc && *n < MAX_TARGETS; i++)` child loop of
`walk`. -/
def walkKids (cs : List ATNode) (out : List RawT) (depth : Nat) : List RawT :=
  match cs with
  | [] => out
  | c :: rest =>
    if out.length ≥ 1024 then out
    else walkKids rest (walk c out (depth + 1)) depth

end

/-! ## GeometryNormalizer (per-window block of `collect_all_targets`,
src/wlim.c:409-468) -/

/-- Final per-target data: raw bounds plus label position
(`lx`,`ly`) and click position (`cx`,`cy`). -/
structure NTar where
  x : Int
  y : Int
  w : Int
  h : Int
  lx : Int
  ly : Int
  cx : Int
  cy : Int
deriving DecidableEq, Repr

/-- Resolved window geometry (hyprctl `at`/`size`). -/
structure Geom where
  wx : Int
  wy : Int
  ww : Int
  wh : Int
deriving DecidableEq, Repr

/-- `(int)ceil(sqrt((double)count))` for the counts the program can
reach (`count ≤ 1024`, where the double computation is exact to within
far less than the gap to the next integer). -/
def ceilSqrt (n : Nat) : Nat :=
  if Nat.sqrt n * Nat.sqrt n = n then Nat.sqrt n else Nat.sqrt n + 1

/-- One grid coordinate of the broken-coordinate fallback: the C code
computes `(int)(base + idx * cell + cell / 2)` in `double`, with
`cell = extent / cells`.  The exact value of that expression is the
fraction `(base·2·cells + (2·idx+1)·extent) / (2·cells)`, and the
`(int)` cast truncates toward zero, which for a positive denominator
is `Int.tdiv` of numerator by denominator. -/
def gridCoord (base : Int) (idx : Nat) (extent : Int) (cells : Nat) : Int :=
  Int.tdiv (base * (2 * cells) + (2 * (idx : Int) + 1) * extent) (2 * cells)

/-- The grid fallback of the broken-coordinate case
(src/wlim.c:416-431): margin 30 inside the window rectangle,
`cols = ceil(sqrt(count))`, `rows = ceil(count/cols)` (computed as
`(count + cols - 1) / cols`, exact for these magnitudes), cell sizes
`gw/cols × gh/rows`, point `t` placed at the center of cell
`(t % cols, t / cols)` (row-major).  The `cols ? cols : 1` and
`rows ? rows : 1` guards of the C code are kept. -/
def gridPlace (ts : List RawT) (g : Geom) : List NTar :=
  let count := ts.length
  let m : Int := 30
  let gx := g.wx + m
  let gy := g.wy + m
  let gw := g.ww - m * 2
  let gh := g.wh - m * 2
  let cols := ceilSqrt count
  let rows := (count + cols - 1) / cols
  let colsG := if cols = 0 then 1 else cols
  let rowsG := if rows = 0 then 1 else rows
  ts.enum.map fun p =>
    let px := gridCoord gx (p.1 % cols) gw colsG
    let py := gridCoord gy (p.1 / cols) gh rowsG
    ⟨p.2.x, p.2.y, p.2.w, p.2.h, px, py, px, py⟩

/-- The offset decision of the window-relative case
(src/wlim.c:441-459): when geometry was resolved with positive size
and the window origin has a positive coordinate, count the targets
whose raw origin lies in `[0, ww) × [0, wh)`; if that is ≥ 80 % of the
group, the offset is the window origin, else zero. -/
def normOffset (ts : List RawT) (geom : Option Geom) : Int × Int :=
  match geom with
  | some g =>
    if g.ww > 0 && g.wh > 0 && (g.wx > 0 || g.wy > 0) then
      let wr := (ts.filter fun t =>
        decide (0 ≤ t.x) && decide (t.x < g.ww) &&
        decide (0 ≤ t.y) && decide (t.y < g.wh)).length
      if 5 * wr ≥ 4 * ts.length then (g.wx, g.wy) else (0, 0)
    else (0, 0)
  | none => (0, 0)

/-- The per-window normalization step of `collect_all_targets`
(src/wlim.c:409-468), applied to one window's raw targets (`count >
0`) and its resolved geometry (`none` when `find_client_geom` and
`find_client_geom_by_title` both failed).

The C comparisons `(double)zeros / count >= 0.8` and
`(double)window_rel / count >= 0.8` are modelled as `5 * zeros ≥ 4 *
count` etc., which is exactly equivalent for `count ≤ 1024` (the
correctly-rounded double quotient and the double literal `0.8` compare
the same way as the exact rationals at these magnitudes). -/
def normalize_group (ts : List RawT) (geom : Option Geom) : List NTar :=
  let count := ts.length
  if count = 0 then []
  else
    let zeros := (ts.filter fun t => decide (t.x = 0) && decide (t.y = 0)).length
    if 5 * zeros ≥ 4 * count then
      -- broken coords — distribute in a grid, or drop the group
      match geom with
      | some g => if g.ww > 0 && g.wh > 0 then gridPlace ts g else []
      | none => []
    else
      -- coords present — detect window-relative reporting
      let off := normOffset ts geom
      ts.map fun t =>
        ⟨t.x, t.y, t.w, t.h,
         t.x + off.1 + 16, t.y + off.2 + 8,
         t.x + off.1 + Int.tdiv t.w 2, t.y + off.2 + Int.tdiv t.h 2⟩

/-! ## KeystrokeMatcher (`on_key`, src/wlim.c:843-888) -/

/-- Key events as `on_key` distinguishes them: Escape, BackSpace, or a
keyval (GDK keyvals for letters coincide with their ASCII codes). -/
inductive KEvent where
  | escape
  | backspace
  | key (keyval : Nat)

/-- The observable outcome of one `on_key` call: the session continues
with a (possibly changed) typed prefix, or it ends with a selected
target index, or it is cancelled. -/
inductive KResult where
  | cont (typed : List Char)
  | selected (idx : Nat)
  | cancelled
deriving DecidableEq, Repr

/-- The keyval-to-character mapping of `on_key` (src/wlim.c:859-861):
lowercase letters pass through, uppercase letters are lowered, all
other keyvals give no character. -/
def keyChar (keyval : Nat) : Option Char :=
  if 97 ≤ keyval ∧ keyval ≤ 122 then some (Char.ofNat keyval)
  else if 65 ≤ keyval ∧ keyval ≤ 90 then some (Char.ofNat (keyval + 32))
  else none

/-- `on_key` (src/wlim.c:843): Escape cancels; BackSpace drops the
last typed character when there is one; a letter is appended unless
the typed buffer is at `MAX_TYPED` (8); then: a unique exact label
match selects that target (the C loop leaves `mi` at the last match,
which with `mc == 1` is the unique one); otherwise, if no label has
the typed text as a prefix (`strncmp(label, typed, typed_len)`), the
buffer resets to empty; otherwise the buffer keeps the appended
character. -/
def on_key (labels : List (List Char)) (typed : List Char) (ev : KEvent) : KResult :=
  match ev with
  | .escape => .cancelled
  | .backspace => .cont (if typed.length > 0 then typed.dropLast else typed)
  | .key kv =>
    match keyChar kv with
    | none => .cont typed
    | some c =>
      if typed.length ≥ 8 then .cont typed
      else
        let cand := typed ++ [c]
        match labels.enum.filter fun p => decide (p.2 = cand) with
        | [m] => .selected m.1
        | _ =>
          if (labels.filter fun l => cand.isPrefixOf l).length = 0
          then .cont [] else .cont cand

/-! ## Spec-side definitions (used only to compare the code against
the spec's words where they differ) -/

/-- The window-relative count as claim C1 words it: a target counts
iff its raw bounds **rectangle** `[x, x+w) × [y, y+h)` lies entirely
inside `[0, ww) × [0, wh)`. -/
def specC1InsideCount (ts : List RawT) (ww wh : Int) : Nat :=
  (ts.filter fun t =>
    decide (0 ≤ t.x) && decide (t.x + t.w ≤ ww) &&
    decide (0 ≤ t.y) && decide (t.y + t.h ≤ wh)).length

/-- Screen bounds as claim C10 words them: the union extent (max of
`x+width`, max of `y+height`) of the feed's monitor rectangles, with
an axis defaulting to 1920 resp. 1080 when the feed is absent or that
axis has no positive extent. -/
def specScreenBounds (rects : Option (List (Int × Int × Int × Int))) : Int × Int :=
  match rects with
  | none => (1920, 1080)
  | some rs =>
    let mx := rs.foldl (fun a r => max a (r.1 + r.2.2.1)) 0
    let my := rs.foldl (fun a r => max a (r.2.1 + r.2.2.2)) 0
    (if mx > 0 then mx else 1920, if my > 0 then my else 1080)

/-- The monitor rectangle `get_screen_bounds` reads out of one feed
block. -/
def parseMonitor (b : List Char) : Int × Int × Int × Int :=
  (json_int b "x".toList 0, json_int b "y".toList 0,
   json_int b "width".toList 0, json_int b "height".toList 0)

/-! ## Helper lemmas: label generation -/

/-- The base-26 value (most significant digit first) of a digit
string; the spec's reading of a label. -/
def digitsValue (ds : List Nat) : Nat :=
  ds.foldl (fun a d => a * 26 + d) 0

theorem lab26_length (L v : Nat) : (lab26 L v).length = L := by
  induction L generalizing v with
  | zero => rfl
  | succ L ih => simp [lab26, ih]

theorem lab26_digits_lt (L v : Nat) : ∀ d ∈ lab26 L v, d < 26 := by
  induction L generalizing v with
  | zero => intro d hd; simp [lab26] at hd
  | succ L ih =>
    intro d hd
    simp only [lab26, List.mem_append, List.mem_singleton] at hd
    rcases hd with hd | hd
    · exact ih _ _ hd
    · subst hd; exact Nat.mod_lt _ (by norm_num)

theorem digitsValue_append_one (ds : List Nat) (d : Nat) :
    digitsValue (ds ++ [d]) = digitsValue ds * 26 + d := by
  simp [digitsValue, List.foldl_append]

theorem lab26_value (L v : Nat) : digitsValue (lab26 L v) = v % 26 ^ L := by
  induction L generalizing v with
  | zero => simp [lab26, digitsValue, Nat.mod_one]
  | succ L ih =>
    rw [lab26, digitsValue_append_one, ih]
    have hp : (26 : Nat) ^ (L + 1) = 26 * 26 ^ L := by ring
    rw [hp]
    have h : v % (26 * 26 ^ L) = v % 26 + 26 * (v / 26 % 26 ^ L) := Nat.mod_mul
    omega

theorem lab26_inj (L i j : Nat) (hi : i < 26 ^ L) (hj : j < 26 ^ L)
    (h : lab26 L i = lab26 L j) : i = j := by
  have := congrArg digitsValue h
  rw [lab26_value, lab26_value, Nat.mod_eq_of_lt hi, Nat.mod_eq_of_lt hj] at this
  exact this

/-- `'a' + d` as a character round-trips through `toNat` for digit
values. -/
theorem char_toNat_digit (d : Nat) (hd : d < 26) :
    (Char.ofNat (97 + d)).toNat = 97 + d := by
  interval_cases d <;> rfl

/-- The width-search loop always lands on a width `len'` with
`26 ^ (len' - 1) < n ≤ 26 ^ len'`, provided it starts from a width
whose predecessor power is still below `n`. -/
theorem lenLoop_inv (n : Nat) : ∀ (k len : Nat), n - 26 ^ len ≤ k → 1 ≤ len →
    26 ^ (len - 1) < n →
    n ≤ 26 ^ lenLoop n len (26 ^ len) ∧
    26 ^ (lenLoop n len (26 ^ len) - 1) < n ∧
    1 ≤ lenLoop n len (26 ^ len) := by
  intro k
  induction k with
  | zero =>
    intro len hk h1 h2
    have hnp : n ≤ 26 ^ len := by omega
    have hguard : ¬(26 ^ len < n ∧ 0 < 26 ^ len) := by omega
    rw [lenLoop, dif_neg hguard]
    exact ⟨hnp, h2, h1⟩
  | succ k ih =>
    intro len hk h1 h2
    by_cases hpn : 26 ^ len < n
    · have hpos : 0 < 26 ^ len := Nat.pos_pow_of_pos _ (by norm_num)
      rw [lenLoop, dif_pos ⟨hpn, hpos⟩]
      have hstep : 26 ^ len * 26 = 26 ^ (len + 1) := by ring
      rw [hstep]
      have hsucc : 26 ^ (len + 1) ≥ 26 ^ len + 1 := by
        have : 26 ^ (len + 1) = 26 ^ len * 26 := by ring
        omega
      refine ih (len + 1) (by omega) (by omega) ?_
      simpa using hpn
    · have hguard : ¬(26 ^ len < n ∧ 0 < 26 ^ len) := by omega
      rw [lenLoop, dif_neg hguard]
      exact ⟨by omega, h2, h1⟩

theorem labelLen_spec (n : Nat) (h : 26 < n) :
    n ≤ 26 ^ labelLen n ∧ 26 ^ (labelLen n - 1) < n ∧ 1 ≤ labelLen n := by
  have h2 : (26 : Nat) ^ (1 - 1) < n := by norm_num; omega
  have := lenLoop_inv n n 1 (by omega) (by omega) h2
  rw [pow_one] at this
  simpa [labelLen] using this

theorem labelOf_toNat (n i : Nat) :
    (labelOf n i).map Char.toNat = (labelDigits n i).map (fun d => 97 + d) ∨
    ¬ (∀ d ∈ labelDigits n i, d < 26) := by
  by_cases hall : ∀ d ∈ labelDigits n i, d < 26
  · left
    rw [labelOf, List.map_map]
    apply List.map_congr_left
    intro d hd
    exact char_toNat_digit d (hall d hd)
  · right; exact hall

theorem labelDigits_lt (n i : Nat) (hi : i < n) : ∀ d ∈ labelDigits n i, d < 26 := by
  by_cases h26 : n ≤ 26
  · intro d hd
    simp only [labelDigits, if_pos h26, List.mem_singleton] at hd
    omega
  · intro d hd
    simp only [labelDigits, if_neg h26] at hd
    exact lab26_digits_lt _ _ d hd

theorem labelOf_inj_aux (n i j : Nat) (hi : i < n) (hj : j < n) (hn : i ≠ j)
    (hbig : 26 < n → n ≤ 26 ^ labelLen n) : labelOf n i ≠ labelOf n j := by
  intro heq
  have hmap := congrArg (List.map Char.toNat) heq
  have hdi := labelOf_toNat n i
  have hdj := labelOf_toNat n j
  rcases hdi with hdi | hdi
  · rcases hdj with hdj | hdj
    · rw [labelOf, labelOf, List.map_map, List.map_map] at hmap
      have hdig : labelDigits n i = labelDigits n j := by
        have hmap2 : (labelDigits n i).map (fun d => 97 + d) =
            (labelDigits n j).map (fun d => 97 + d) := by
          rw [labelOf, List.map_map] at hdi hdj
          rw [← hdi, ← hdj]
          exact hmap
        have hinj : Function.Injective (fun d : Nat => 97 + d) := fun a b hab => by
          have hab2 : 97 + a = 97 + b := hab
          omega
        exact List.map_injective_iff.mpr hinj hmap2
      by_cases h26 : n ≤ 26
      · simp only [labelDigits, if_pos h26, List.cons.injEq] at hdig
        exact hn hdig.1
      · simp only [labelDigits, if_neg h26] at hdig
        have hb := hbig (by omega)
        exact hn (lab26_inj _ _ _ (by omega) (by omega) hdig)
    · exact hdj (labelDigits_lt n j hj)
  · exact hdi (labelDigits_lt n i hi)

theorem labelOf_value (n i : Nat) (hi : i < n) (hbig : 26 < n → n ≤ 26 ^ labelLen n) :
    digitsValue ((labelOf n i).map (fun c => c.toNat - 97)) = i := by
  have hlt := labelDigits_lt n i hi
  have hmap : (labelOf n i).map (fun c => c.toNat - 97) = labelDigits n i := by
    rw [labelOf, List.map_map]
    have : ∀ d ∈ labelDigits n i, ((fun c : Char => c.toNat - 97) ∘
        fun d => Char.ofNat (97 + d)) d = id d := by
      intro d hd
      simp only [Function.comp_apply, id_eq]
      rw [char_toNat_digit d (hlt d hd)]
      omega
    rw [List.map_congr_left this, List.map_id]
  rw [hmap]
  by_cases h26 : n ≤ 26
  · simp [labelDigits, if_pos h26, digitsValue]
  · simp only [labelDigits, if_neg h26]
    rw [lab26_value]
    exact Nat.mod_eq_of_lt (by
      have := hbig (by omega)
      omega)

theorem labelLen_27 : labelLen 27 = 2 := by
  rw [labelLen, lenLoop, dif_pos (by norm_num), lenLoop, dif_neg (by norm_num)]

/-! ## Theorems for the claims -/

/-- C5: for every target count `n` with `1 ≤ n ≤ 1024`, label
assignment produces pairwise-distinct labels of identical length:
single letters `a, b, c, …` in index order when `n ≤ 26`, and
otherwise, with `L` the minimal width such that `26^L ≥ n`, the
base-26 representation of each index `i ∈ [0, n)` zero-padded to width
`L` with digits `a`-`z` most significant first (stated as: every label
has length `L`, every character is a lowercase letter, and reading the
label back as a base-26 numeral recovers the index); in particular for
`n = 27` index 0 gets `"aa"`, index 25 gets `"az"`, and index 26 gets
`"ba"`. -/
theorem c5_label_assignment (n : Nat) (hn1 : 1 ≤ n) (hn2 : n ≤ 1024) :
    (∀ i j, i < n → j < n → i ≠ j → labelOf n i ≠ labelOf n j) ∧
    (∀ i j, i < n → j < n → (labelOf n i).length = (labelOf n j).length) ∧
    (n ≤ 26 → ∀ i, i < n → labelOf n i = [Char.ofNat (97 + i)]) ∧
    (26 < n →
      n ≤ 26 ^ labelLen n ∧ 26 ^ (labelLen n - 1) < n ∧
      ∀ i, i < n → (labelOf n i).length = labelLen n ∧
        (∀ c ∈ labelOf n i, 97 ≤ c.toNat ∧ c.toNat ≤ 122) ∧
        digitsValue ((labelOf n i).map (fun c => c.toNat - 97)) = i) ∧
    labelOf 27 0 = ['a', 'a'] ∧ labelOf 27 25 = ['a', 'z'] ∧
    labelOf 27 26 = ['b', 'a'] := by
  have hbig : 26 < n → n ≤ 26 ^ labelLen n := fun h => (labelLen_spec n h).1
  refine ⟨?_, ?_, ?_, ?_,
    by simp only [labelOf, labelDigits, labelLen_27]; decide,
    by simp only [labelOf, labelDigits, labelLen_27]; decide,
    by simp only [labelOf, labelDigits, labelLen_27]; decide⟩
  · intro i j hi hj hne
    exact labelOf_inj_aux n i j hi hj hne hbig
  · intro i j hi hj
    by_cases h26 : n ≤ 26
    · simp [labelOf, labelDigits, if_pos h26]
    · simp [labelOf, labelDigits, if_neg h26, lab26_length]
  · intro h26 i hi
    simp [labelOf, labelDigits, if_pos h26]
  · intro h26
    refine ⟨(labelLen_spec n h26).1, (labelLen_spec n h26).2.1, ?_⟩
    intro i hi
    refine ⟨?_, ?_, labelOf_value n i hi hbig⟩
    · simp [labelOf, labelDigits, if_neg (by omega : ¬ n ≤ 26), lab26_length]
    · intro c hc
      simp only [labelOf, List.mem_map] at hc
      obtain ⟨d, hd, hcd⟩ := hc
      have hlt := labelDigits_lt n i hi d hd
      rw [← hcd, char_toNat_digit d hlt]
      omega

/-- Witness for C5 at `n = 27`. -/
theorem c5_label_assignment_witness :
    labelOf 27 0 = ['a', 'a'] ∧ labelOf 27 25 = ['a', 'z'] ∧
    labelOf 27 26 = ['b', 'a'] :=
  (c5_label_assignment 27 (by norm_num) (by norm_num)).2.2.2.2

/-- C2 counterexample: contrary to the claim, the title-similarity
predicate does **not** return no-match on this pair — the shorter
title is a substring (in fact a prefix) of the longer one, so the
substring rule fires. -/
theorem c2_titles_counterexample :
    ¬ titles_match "example.com/page".toList "example.com/page?x=1".toList = false := by
  decide

/-- C2 amended: the title-similarity predicate applied to
`"example.com/page"` and `"example.com/page?x=1"` returns a match,
because the substring test succeeds (the 16-character first title —
not 17 as the spec counts — occurs inside the second); the 16-character
common prefix indeed fails the ≥ 20 threshold, but that rule is never
reached. -/
theorem c2_titles_amended :
    titles_match "example.com/page".toList "example.com/page?x=1".toList = true ∧
    (strstr "example.com/page?x=1".toList "example.com/page".toList).isSome = true ∧
    "example.com/page".toList.length = 16 ∧
    commonPrefixLen "example.com/page".toList "example.com/page?x=1".toList = 16 := by
  decide

/-- C3 counterexample: the field `k` is present but its value `x` is
unparseable; the extractor returns `atoi`'s 0, not the caller-supplied
default 7. -/
theorem c3_json_int_counterexample :
    json_int "\"k\": x".toList "k".toList 7 = 0 ∧ (0 : Int) ≠ 7 := by
  constructor
  · decide
  · decide

/-- C3 amended: the integer field extractor returns the caller-supplied
default exactly when the `"key":` pattern is absent from the blob; when
the pattern is present the result is `atoi` of the following text
(which is 0 for unparseable text) and does not depend on the default;
the extractor is a total function, so malformed input never raises an
error. -/
theorem c3_json_int_amended (j key : List Char) (d d2 : Int) :
    (strstr j ('"' :: key ++ ['"', ':']) = none → json_int j key d = d) ∧
    (strstr j ('"' :: key ++ ['"', ':']) ≠ none →
      json_int j key d = json_int j key d2) := by
  constructor
  · intro h
    simp only [json_int]
    rw [h]
  · intro h
    cases hs : strstr j ('"' :: key ++ ['"', ':']) with
    | none => exact absurd hs h
    | some p =>
      simp only [json_int]
      rw [hs]

/-- Witness for C3 (amended): a blob without the field yields the
default, and for a blob with the field the default is irrelevant. -/
theorem c3_json_int_amended_witness :
    json_int "nothing".toList "k".toList 7 = 7 ∧
    json_int "\"k\": 5".toList "k".toList 7 =
      json_int "\"k\": 5".toList "k".toList 0 :=
  ⟨(c3_json_int_amended "nothing".toList "k".toList 7 0).1 (by decide),
   (c3_json_int_amended "\"k\": 5".toList "k".toList 7 0).2 (by decide)⟩

/-- C6: a candidate at `(x,y)` is classified as a near-duplicate iff
some candidate among the last 10 accepted (and only those 10) has both
axis deltas ≤ 4; concretely, with 11 accepted candidates spaced 100
apart, a candidate within 4 units of the first accepted (11 positions
back) is not a duplicate, while one within 4 units of the tenth (2
back) is. -/
theorem c6_dedup_window :
    (∀ (out : List RawT) (x y : Int),
      is_duplicate out x y = true ↔
        ∃ i, ∃ h : i < out.length, out.length ≤ i + 10 ∧
          (out[i].x - x).natAbs ≤ 4 ∧ (out[i].y - y).natAbs ≤ 4) ∧
    is_duplicate
      ((List.range 11).map fun i => ⟨100 * (i : Int), 100 * (i : Int), 5, 5⟩)
      2 2 = false ∧
    is_duplicate
      ((List.range 11).map fun i => ⟨100 * (i : Int), 100 * (i : Int), 5, 5⟩)
      902 902 = true := by
  refine ⟨?_, by decide, by decide⟩
  intro out x y
  rw [is_duplicate, List.any_eq_true]
  constructor
  · rintro ⟨t, ht, hp⟩
    rw [List.mem_iff_getElem] at ht
    obtain ⟨j, hj, hjt⟩ := ht
    have hjd : j < (out.drop (out.length - 10)).length := hj
    have hlen := hjd
    rw [List.length_drop] at hlen
    have hget := List.getElem_drop out (i := out.length - 10) (j := j) (h := hjd)
    rw [hjt] at hget
    rw [Bool.and_eq_true, decide_eq_true_eq, decide_eq_true_eq] at hp
    exact ⟨out.length - 10 + j, by omega, by omega, by rw [← hget]; exact hp.1,
           by rw [← hget]; exact hp.2⟩
  · rintro ⟨i, h, hwin, hx, hy⟩
    refine ⟨out[i], ?_, ?_⟩
    · rw [List.mem_iff_getElem]
      have hjd : i - (out.length - 10) < (out.drop (out.length - 10)).length := by
        rw [List.length_drop]; omega
      refine ⟨i - (out.length - 10), hjd, ?_⟩
      have hget := List.getElem_drop out (i := out.length - 10)
        (j := i - (out.length - 10)) (h := hjd)
      rw [hget]
      have hidx : out.length - 10 + (i - (out.length - 10)) = i := by omega
      simp only [hidx]
    · rw [Bool.and_eq_true, decide_eq_true_eq, decide_eq_true_eq]
      exact ⟨hx, hy⟩

/-! ## Helper lemmas: keystroke matcher -/

theorem enumFrom_filter_length (cand : List Char) :
    ∀ (ls : List (List Char)) (k : Nat),
      ((List.enumFrom k ls).filter fun p => decide (p.2 = cand)).length =
      (ls.filter fun l => decide (l = cand)).length := by
  intro ls
  induction ls with
  | nil => intro k; rfl
  | cons a as ih =>
    intro k
    rw [List.enumFrom, List.filter_cons, List.filter_cons]
    by_cases ha : a = cand
    · simp [ha, ih]
    · simp [ha, ih]

theorem mem_enum_filter (ls : List (List Char)) (cand : List Char)
    (p : Nat × List Char)
    (hp : p ∈ ls.enum.filter fun q => decide (q.2 = cand)) :
    ∃ h : p.1 < ls.length, ls[p.1] = cand := by
  rw [List.mem_filter] at hp
  obtain ⟨hmem, hq⟩ := hp
  rw [decide_eq_true_eq] at hq
  have hmem2 : (p.1, p.2) ∈ ls.enum := by simpa using hmem
  obtain ⟨h1, h2⟩ := List.mem_enum hmem2
  exact ⟨h1, by rw [← h2]; exact hq⟩

theorem keyChar_lower (c : Char) (h1 : 97 ≤ c.toNat) (h2 : c.toNat ≤ 122) :
    keyChar c.toNat = some c := by
  rw [keyChar, if_pos ⟨h1, h2⟩, Char.ofNat_toNat]

/-- C7 counterexample: with the typed prefix at the 8-character cap
(`MAX_TYPED`), a further letter is a no-op: the state stays
`Typing("aaaaaaaa")` even though no label has the 9-character candidate
as a prefix, where the claim requires a reset to `Typing("")`. -/
theorem c7_matcher_counterexample :
    on_key [['a'], ['b'], ['c']]
      ['a', 'a', 'a', 'a', 'a', 'a', 'a', 'a'] (.key 100) =
      .cont ['a', 'a', 'a', 'a', 'a', 'a', 'a', 'a'] ∧
    KResult.cont ['a', 'a', 'a', 'a', 'a', 'a', 'a', 'a'] ≠ .cont [] ∧
    ([['a'], ['b'], ['c']].filter fun l =>
      (['a', 'a', 'a', 'a', 'a', 'a', 'a', 'a'] ++ ['d']).isPrefixOf l) = [] := by
  refine ⟨by decide, by decide, by decide⟩

/-- C7 amended: for every labeled target list and every `Typing(prefix)`
state **whose prefix is below the 8-character cap**, a lowercase
`Character(c)` event yields `Selected(t)` when exactly one target's
label equals `prefix+c`, a reset to `Typing("")` when no target's label
starts with `prefix+c`, and `Typing(prefix+c)` otherwise (at the cap
the event is a no-op); `Backspace` on a non-empty prefix drops its last
character and on an empty prefix is a no-op; `Cancel` is terminal with
no target chosen.  Concretely with labels `{a,b,c}`, typing `d` resets
to empty and typing `a` selects the target labeled `a`. -/
theorem c7_matcher_amended (labels : List (List Char)) (typed : List Char)
    (c : Char) (hc1 : 97 ≤ c.toNat) (hc2 : c.toNat ≤ 122)
    (hlen : typed.length < 8) :
    ((labels.filter fun l => decide (l = typed ++ [c])).length = 1 →
      ∃ i, ∃ h : i < labels.length,
        on_key labels typed (.key c.toNat) = .selected i ∧
        labels[i] = typed ++ [c]) ∧
    ((labels.filter fun l => (typed ++ [c]).isPrefixOf l) = [] →
      on_key labels typed (.key c.toNat) = .cont []) ∧
    ((labels.filter fun l => decide (l = typed ++ [c])).length ≠ 1 →
      (labels.filter fun l => (typed ++ [c]).isPrefixOf l) ≠ [] →
      on_key labels typed (.key c.toNat) = .cont (typed ++ [c])) ∧
    (typed ≠ [] → on_key labels typed .backspace = .cont typed.dropLast) ∧
    (on_key labels [] .backspace = .cont []) ∧
    (on_key labels typed .escape = .cancelled) ∧
    on_key [['a'], ['b'], ['c']] [] (.key 100) = .cont [] ∧
    on_key [['a'], ['b'], ['c']] [] (.key 97) = .selected 0 := by
  have hkey : keyChar c.toNat = some c := keyChar_lower c hc1 hc2
  have hnotcap : ¬ typed.length ≥ 8 := by omega
  have hbridge := enumFrom_filter_length (typed ++ [c]) labels 0
  refine ⟨?_, ?_, ?_, ?_, by simp [on_key], by simp [on_key], by decide, by decide⟩
  · intro hone
    simp only [on_key, hkey]
    rw [if_neg hnotcap]
    have hlen1 : ((labels.enum.filter fun p =>
        decide (p.2 = typed ++ [c])).length) = 1 := by
      rw [List.enum, hbridge]; exact hone
    obtain ⟨m, hm⟩ := List.length_eq_one.mp hlen1
    have hm2 : (labels.enum.filter fun p => decide (p.2 = typed ++ [c])) = [m] := hm
    obtain ⟨hmlt, hmget⟩ := mem_enum_filter labels (typed ++ [c]) m
      (by rw [hm2]; exact List.mem_singleton.mpr rfl)
    refine ⟨m.1, hmlt, ?_, hmget⟩
    rw [hm2]
  · intro hnone
    simp only [on_key, hkey]
    rw [if_neg hnotcap]
    have hexact : (labels.enum.filter fun p =>
        decide (p.2 = typed ++ [c])) = [] := by
      rw [List.filter_eq_nil_iff]
      intro p hp
      rw [decide_eq_true_eq]
      intro hcand
      have hmem2 : (p.1, p.2) ∈ labels.enum := by simpa using hp
      obtain ⟨h1, h2⟩ := List.mem_enum hmem2
      have : labels[p.1] ∈ labels.filter fun l => (typed ++ [c]).isPrefixOf l := by
        rw [List.mem_filter]
        refine ⟨List.getElem_mem _, ?_⟩
        rw [← h2, hcand]
        exact List.isPrefixOf_iff_prefix.mpr (List.prefix_refl _)
      rw [hnone] at this
      exact absurd this (List.not_mem_nil _)
    rw [hexact]
    simp [hnone]
  · intro hne1 hpre
    simp only [on_key, hkey]
    rw [if_neg hnotcap]
    have hlenne : ((labels.enum.filter fun p =>
        decide (p.2 = typed ++ [c])).length) ≠ 1 := by
      rw [List.enum, hbridge]; exact hne1
    have hprelen : ((labels.filter fun l =>
        (typed ++ [c]).isPrefixOf l).length) ≠ 0 := by
      intro h0
      exact hpre (List.length_eq_zero.mp h0)
    cases hms : (labels.enum.filter fun p => decide (p.2 = typed ++ [c])) with
    | nil => simp [hprelen]
    | cons m rest =>
      cases rest with
      | nil => exact absurd (by rw [hms]; simp) hlenne
      | cons m2 rest2 => simp [hprelen]
  · intro hne
    rw [on_key]
    simp [List.length_pos.mpr hne]

/-- Witness for C7 (amended): typing `x` with labels `{a,b,c}` and an
empty prefix resets to the empty prefix. -/
theorem c7_matcher_amended_witness :
    on_key [['a'], ['b'], ['c']] [] (.key 120) = .cont [] :=
  (c7_matcher_amended [['a'], ['b'], ['c']] [] 'x' (by decide) (by decide)
    (by decide)).2.1 (by decide)

/-- C8 counterexample: a node whose state-set query failed (`states =
none`) but whose role and extents queries succeeded **is** collected:
the NULL state set merely skips the visibility check (src/wlim.c:330
`if (ss)`), it does not skip the node's candidacy as the claim
requires. -/
theorem c8_walk_counterexample :
    (ATNode.node (some 43) none (some ⟨5, 5, 10, 10⟩) []).states = none ∧
    walk (.node (some 43) none (some ⟨5, 5, 10, 10⟩) []) [] 1 =
      [⟨5, 5, 10, 10⟩] := by
  constructor
  · rfl
  · rw [walk.eq_def]
    decide

/-- C8 amended: during the tree walk (within the depth and count
ceilings), a failed role query or a failed extents query leaves the
node uncollected while its children are still descended into (the walk
continues with exactly the child loop); a failed state-set query only
skips the visibility filter — the node can still be collected (see the
counterexample); no single-node failure aborts the walk, which is a
total function. -/
theorem c8_walk_amended :
    (∀ (states : Option (Bool × Bool)) (ext : Option RawT)
       (children : List ATNode) (out : List RawT) (depth : Nat),
      depth ≤ 30 → out.length < 1024 →
      walk (.node none states ext children) out depth =
        walkKids children out depth) ∧
    (∀ (r : Nat) (states : Option (Bool × Bool)) (children : List ATNode)
       (out : List RawT) (depth : Nat),
      depth ≤ 30 → out.length < 1024 →
      (depth = 0 ∨ states = none ∨ states = some (true, true)) →
      walk (.node (some r) states none children) out depth =
        walkKids children out depth) := by
  constructor
  · intro states ext children out depth hd hn
    rw [walk.eq_def]
    have hcond : (decide (depth > 30) || decide (out.length ≥ 1024)) = false := by
      simp; omega
    rw [hcond]
    simp
  · intro r states children out depth hd hn hvis
    rw [walk.eq_def]
    have hcond : (decide (depth > 30) || decide (out.length ≥ 1024)) = false := by
      simp; omega
    rw [hcond]
    rcases hvis with h0 | hst | hst
    · subst h0; simp
    · subst hst; simp
    · subst hst; simp

/-- Witness for C8 (amended) at a concrete node with a failed role
query. -/
theorem c8_walk_amended_witness :
    walk (.node none none none []) [] 0 = walkKids [] [] 0 :=
  c8_walk_amended.1 none none [] [] 0 (by norm_num) (by norm_num)

/-! ## Helper lemmas: geometry normalizer -/

theorem gridPlace_length (ts : List RawT) (g : Geom) :
    (gridPlace ts g).length = ts.length := by
  rw [gridPlace, List.length_map, List.enum_length]

/-- C9 counterexample: a one-target group at raw origin (0,0) (100 %
zero-origin, hence broken) whose window geometry **was** resolved —
`find_client_geom` succeeded with size (0,0) — is still dropped, so
the target count decreases in a case the claim labels
"count unchanged". -/
theorem c9_normalize_counterexample :
    normalize_group [⟨0, 0, 5, 5⟩] (some ⟨100, 100, 0, 0⟩) = [] ∧
    (normalize_group [⟨0, 0, 5, 5⟩] (some ⟨100, 100, 0, 0⟩)).length ≠
      [(⟨0, 0, 5, 5⟩ : RawT)].length := by
  constructor
  · rfl
  · decide

/-- C9 amended: per-window geometry normalization never changes a
group's target count, except that a group whose coordinates are broken
(≥ 80 % zero-origin) and for which no positive-size window geometry
was resolved (lookup failed, or it returned a non-positive width or
height) is dropped entirely. -/
theorem c9_normalize_count (ts : List RawT) (geom : Option Geom) :
    (normalize_group ts geom).length = ts.length ∨
    (normalize_group ts geom = [] ∧
      5 * (ts.filter fun t => decide (t.x = 0) && decide (t.y = 0)).length ≥
        4 * ts.length ∧
      ∀ g, geom = some g → g.ww ≤ 0 ∨ g.wh ≤ 0) := by
  cases geom with
  | none =>
    simp only [normalize_group]
    by_cases h0 : ts.length = 0
    · rw [if_pos h0]
      left
      simp [h0]
    · rw [if_neg h0]
      by_cases hb : 5 * (ts.filter fun t =>
          decide (t.x = 0) && decide (t.y = 0)).length ≥ 4 * ts.length
      · rw [if_pos hb]
        right
        exact ⟨rfl, hb, fun g hg => by cases hg⟩
      · rw [if_neg hb]
        left
        rw [List.length_map]
  | some g =>
    simp only [normalize_group]
    by_cases h0 : ts.length = 0
    · rw [if_pos h0]
      left
      simp [h0]
    · rw [if_neg h0]
      by_cases hb : 5 * (ts.filter fun t =>
          decide (t.x = 0) && decide (t.y = 0)).length ≥ 4 * ts.length
      · rw [if_pos hb]
        by_cases hwh : (decide (g.ww > 0) && decide (g.wh > 0)) = true
        · rw [if_pos hwh]
          left
          exact gridPlace_length ts g
        · rw [if_neg hwh]
          right
          refine ⟨rfl, hb, ?_⟩
          intro g2 hg2
          injection hg2 with hh
          subst hh
          simp only [Bool.and_eq_true, decide_eq_true_eq, not_and, not_lt] at hwh
          by_cases hww : g.ww > 0
          · exact Or.inr (hwh hww)
          · exact Or.inl (by omega)
      · rw [if_neg hb]
        left
        rw [List.length_map]

/-- Witness for C9 (amended), instantiated at a group that is kept. -/
theorem c9_normalize_count_witness :
    (normalize_group [⟨3, 4, 5, 6⟩] none).length =
      [(⟨3, 4, 5, 6⟩ : RawT)].length ∨
    (normalize_group [⟨3, 4, 5, 6⟩] none = [] ∧
      5 * ([(⟨3, 4, 5, 6⟩ : RawT)].filter fun t =>
        decide (t.x = 0) && decide (t.y = 0)).length ≥
        4 * [(⟨3, 4, 5, 6⟩ : RawT)].length ∧
      ∀ g, (none : Option Geom) = some g → g.ww ≤ 0 ∨ g.wh ≤ 0) :=
  c9_normalize_count [⟨3, 4, 5, 6⟩] none

/-- C1 counterexample: window origin (500,300), size (800,600); every
target's raw bounds rectangle `[700,900) × [500,700)` sticks out of
`[0,800) × [0,600)`, so under the claim's entirely-inside test the
fraction is 0 % and the offset must be zero (click x would be
`700 + 200/2 = 800`); the code nevertheless applies the offset,
yielding click x `1300`, because it only tests the raw **origin**
against the window size. -/
theorem c1_window_relative_counterexample :
    specC1InsideCount (List.replicate 10 ⟨700, 500, 200, 200⟩) 800 600 = 0 ∧
    (normalize_group (List.replicate 10 ⟨700, 500, 200, 200⟩)
        (some ⟨500, 300, 800, 600⟩)).map (fun t => t.cx) =
      List.replicate 10 1300 ∧
    (1300 : Int) ≠ 700 + 200 / 2 := by
  refine ⟨by decide, by decide, by decide⟩

/-- C1 amended: in the window-relative case (group not broken,
geometry resolved with positive size, and the window origin having a
positive x or y coordinate — the code tests `wx > 0 || wy > 0`, not
"origin ≠ (0,0)"), a target counts toward the window-relative fraction
iff its raw **origin** lies in `[0, width) × [0, height)` (the far
edge of its bounds is not consulted); if that fraction is ≥ 80 % the
window origin is added as an offset to every target of the group,
otherwise the offset is zero. -/
theorem c1_window_relative_amended (ts : List RawT) (g : Geom)
    (hne : ts ≠ [])
    (hnb : ¬ 5 * (ts.filter fun t =>
        decide (t.x = 0) && decide (t.y = 0)).length ≥ 4 * ts.length)
    (hw : g.ww > 0) (hh : g.wh > 0) (ho : g.wx > 0 ∨ g.wy > 0) :
    (5 * (ts.filter fun t =>
        decide (0 ≤ t.x) && decide (t.x < g.ww) &&
        decide (0 ≤ t.y) && decide (t.y < g.wh)).length ≥ 4 * ts.length →
      normalize_group ts (some g) = ts.map fun t =>
        ⟨t.x, t.y, t.w, t.h, t.x + g.wx + 16, t.y + g.wy + 8,
         t.x + g.wx + Int.tdiv t.w 2, t.y + g.wy + Int.tdiv t.h 2⟩) ∧
    (¬ 5 * (ts.filter fun t =>
        decide (0 ≤ t.x) && decide (t.x < g.ww) &&
        decide (0 ≤ t.y) && decide (t.y < g.wh)).length ≥ 4 * ts.length →
      normalize_group ts (some g) = ts.map fun t =>
        ⟨t.x, t.y, t.w, t.h, t.x + 0 + 16, t.y + 0 + 8,
         t.x + 0 + Int.tdiv t.w 2, t.y + 0 + Int.tdiv t.h 2⟩) := by
  have h0 : ¬ ts.length = 0 := by
    intro h
    exact hne (List.length_eq_zero.mp h)
  have hcond : (decide (g.ww > 0) && decide (g.wh > 0) &&
      (decide (g.wx > 0) || decide (g.wy > 0))) = true := by
    rcases ho with ho | ho <;> simp [hw, hh, ho]
  constructor
  · intro hfrac
    have hoff : normOffset ts (some g) = (g.wx, g.wy) := by
      rw [normOffset]
      rw [if_pos hcond, if_pos hfrac]
    simp only [normalize_group, if_neg h0, if_neg hnb, hoff]
  · intro hfrac
    have hoff : normOffset ts (some g) = (0, 0) := by
      rw [normOffset]
      rw [if_pos hcond, if_neg hfrac]
    simp only [normalize_group, if_neg h0, if_neg hnb, hoff]

/-- Witness for C1 (amended): the spec's own example — window origin
(500,300), size (800,600), 9 of 10 raw origins inside → offset
(500,300) applied to all 10; and a variant with only 5 of 10 inside →
offset zero. -/
theorem c1_window_relative_amended_witness :
    normalize_group
        (List.replicate 9 ⟨10, 10, 20, 20⟩ ++ [⟨900, 700, 20, 20⟩])
        (some ⟨500, 300, 800, 600⟩) =
      ((List.replicate 9 (⟨10, 10, 20, 20⟩ : RawT) ++
          [(⟨900, 700, 20, 20⟩ : RawT)]).map
        (fun t => (⟨t.x, t.y, t.w, t.h, t.x + 500 + 16, t.y + 300 + 8,
          t.x + 500 + Int.tdiv t.w 2, t.y + 300 + Int.tdiv t.h 2⟩ : NTar))) ∧
    normalize_group
        (List.replicate 5 ⟨10, 10, 20, 20⟩ ++ List.replicate 5 ⟨900, 700, 20, 20⟩)
        (some ⟨500, 300, 800, 600⟩) =
      ((List.replicate 5 (⟨10, 10, 20, 20⟩ : RawT) ++
          List.replicate 5 (⟨900, 700, 20, 20⟩ : RawT)).map
        (fun t => (⟨t.x, t.y, t.w, t.h, t.x + 0 + 16, t.y + 0 + 8,
          t.x + 0 + Int.tdiv t.w 2, t.y + 0 + Int.tdiv t.h 2⟩ : NTar))) :=
  ⟨(c1_window_relative_amended
      (List.replicate 9 ⟨10, 10, 20, 20⟩ ++ [⟨900, 700, 20, 20⟩])
      ⟨500, 300, 800, 600⟩ (by decide) (by decide) (by decide) (by decide)
      (by decide)).1 (by decide),
   (c1_window_relative_amended
      (List.replicate 5 ⟨10, 10, 20, 20⟩ ++ List.replicate 5 ⟨900, 700, 20, 20⟩)
      ⟨500, 300, 800, 600⟩ (by decide) (by decide) (by decide) (by decide)
      (by decide)).2 (by decide)⟩

/-! ## Helper lemmas: grid fallback arithmetic -/

/-- `ceilSqrt n` is exactly `⌈√n⌉`: the least `c` with `c·c ≥ n`. -/
theorem ceilSqrt_spec (n : Nat) (hn : 1 ≤ n) :
    ceilSqrt n * ceilSqrt n ≥ n ∧
    (ceilSqrt n - 1) * (ceilSqrt n - 1) < n ∧ 1 ≤ ceilSqrt n := by
  rw [ceilSqrt]
  by_cases h : Nat.sqrt n * Nat.sqrt n = n
  · rw [if_pos h]
    have hs1 : 1 ≤ Nat.sqrt n := Nat.le_sqrt.mpr (by omega)
    obtain ⟨k, hk⟩ : ∃ k, Nat.sqrt n = k + 1 := ⟨Nat.sqrt n - 1, by omega⟩
    rw [hk] at h ⊢
    have hexp : (k + 1) * (k + 1) = k * k + 2 * k + 1 := by ring
    simp only [Nat.add_sub_cancel]
    omega
  · rw [if_neg h]
    have h1 : Nat.sqrt n * Nat.sqrt n ≤ n := Nat.sqrt_le n
    have h2 : n < (Nat.sqrt n + 1) * (Nat.sqrt n + 1) := Nat.lt_succ_sqrt n
    simp only [Nat.add_sub_cancel]
    omega

/-- `(n + cols - 1) / cols` is exactly `⌈n / cols⌉`: enough cells, and
one row fewer would not be. -/
theorem ceilDiv_spec (n cols : Nat) (hc : 1 ≤ cols) :
    cols * ((n + cols - 1) / cols) ≥ n ∧
    (1 ≤ n → cols * ((n + cols - 1) / cols - 1) < n) := by
  have hdm := Nat.div_add_mod (n + cols - 1) cols
  have hmod : (n + cols - 1) % cols < cols := Nat.mod_lt _ (by omega)
  constructor
  · omega
  · intro hn
    rw [Nat.mul_sub]
    omega

theorem ceilSqrt_10 : ceilSqrt 10 = 4 := by
  have h1 : Nat.sqrt 10 < 4 := Nat.sqrt_lt.mpr (by norm_num)
  have h2 : 3 ≤ Nat.sqrt 10 := Nat.le_sqrt.mpr (by norm_num)
  have h10 : Nat.sqrt 10 = 3 := by omega
  rw [ceilSqrt, h10]
  norm_num

/-- C4: for a WindowGroup in which at least 80 % of the targets have
raw origin exactly (0,0): with resolved positive-size geometry, the
whole group is laid out on the synthetic grid — `cols` is the least
count whose square covers the group, `rows` the least number of rows
covering it at that width, and target `k` is placed (click = anchor)
at the center of cell `(k % cols, k / cols)` of the grid inset 30
units into the window rectangle with cell sizes `(width-60)/cols ×
(height-60)/rows` (`gridCoord` is that center, truncated to int
exactly as the C double computation does); with unresolved geometry
the group is removed.  A group of 10 targets with 8 at (0,0) triggers
the grid fallback, and one with exactly 7 at (0,0) does not. -/
theorem c4_broken_grid (ts : List RawT) (g : Geom)
    (hne : ts ≠ [])
    (hbroken : 5 * (ts.filter fun t =>
        decide (t.x = 0) && decide (t.y = 0)).length ≥ 4 * ts.length) :
    (g.ww > 0 → g.wh > 0 →
      normalize_group ts (some g) = gridPlace ts g ∧
      (gridPlace ts g).length = ts.length ∧
      ceilSqrt ts.length * ceilSqrt ts.length ≥ ts.length ∧
      (ceilSqrt ts.length - 1) * (ceilSqrt ts.length - 1) < ts.length ∧
      ceilSqrt ts.length *
        ((ts.length + ceilSqrt ts.length - 1) / ceilSqrt ts.length) ≥
        ts.length ∧
      ceilSqrt ts.length *
        ((ts.length + ceilSqrt ts.length - 1) / ceilSqrt ts.length - 1) <
        ts.length ∧
      (∀ k, ∀ hk : k < ts.length, (gridPlace ts g)[k]? = some
        ⟨ts[k].x, ts[k].y, ts[k].w, ts[k].h,
         gridCoord (g.wx + 30) (k % ceilSqrt ts.length) (g.ww - 60)
           (ceilSqrt ts.length),
         gridCoord (g.wy + 30) (k / ceilSqrt ts.length) (g.wh - 60)
           ((ts.length + ceilSqrt ts.length - 1) / ceilSqrt ts.length),
         gridCoord (g.wx + 30) (k % ceilSqrt ts.length) (g.ww - 60)
           (ceilSqrt ts.length),
         gridCoord (g.wy + 30) (k / ceilSqrt ts.length) (g.wh - 60)
           ((ts.length + ceilSqrt ts.length - 1) / ceilSqrt ts.length)⟩)) ∧
    normalize_group ts none = [] ∧
    normalize_group
        (List.replicate 8 (⟨0, 0, 5, 5⟩ : RawT) ++
          [(⟨50, 60, 5, 5⟩ : RawT), (⟨70, 80, 5, 5⟩ : RawT)])
        (some ⟨100, 100, 400, 400⟩) =
      [⟨0, 0, 5, 5, 172, 186, 172, 186⟩, ⟨0, 0, 5, 5, 257, 186, 257, 186⟩,
       ⟨0, 0, 5, 5, 342, 186, 342, 186⟩, ⟨0, 0, 5, 5, 427, 186, 427, 186⟩,
       ⟨0, 0, 5, 5, 172, 300, 172, 300⟩, ⟨0, 0, 5, 5, 257, 300, 257, 300⟩,
       ⟨0, 0, 5, 5, 342, 300, 342, 300⟩, ⟨0, 0, 5, 5, 427, 300, 427, 300⟩,
       ⟨50, 60, 5, 5, 172, 413, 172, 413⟩,
       ⟨70, 80, 5, 5, 257, 413, 257, 413⟩] ∧
    normalize_group
        (List.replicate 7 (⟨0, 0, 5, 5⟩ : RawT) ++
          [(⟨50, 60, 10, 10⟩ : RawT), (⟨70, 80, 10, 10⟩ : RawT),
           (⟨90, 100, 10, 10⟩ : RawT)])
        (some ⟨100, 100, 400, 400⟩) =
      (List.replicate 7 (⟨0, 0, 5, 5⟩ : RawT) ++
          [(⟨50, 60, 10, 10⟩ : RawT), (⟨70, 80, 10, 10⟩ : RawT),
           (⟨90, 100, 10, 10⟩ : RawT)]).map
        (fun t => (⟨t.x, t.y, t.w, t.h, t.x + 100 + 16, t.y + 100 + 8,
          t.x + 100 + Int.tdiv t.w 2, t.y + 100 + Int.tdiv t.h 2⟩ : NTar)) := by
  have h0 : ¬ ts.length = 0 := fun h => hne (List.length_eq_zero.mp h)
  have hn1 : 1 ≤ ts.length := by omega
  have hcs := ceilSqrt_spec ts.length hn1
  have hcols1 : 1 ≤ ceilSqrt ts.length := hcs.2.2
  have hcd := ceilDiv_spec ts.length (ceilSqrt ts.length) hcols1
  have hrows1 : 1 ≤ (ts.length + ceilSqrt ts.length - 1) / ceilSqrt ts.length := by
    rw [Nat.one_le_div_iff (by omega)]
    omega
  refine ⟨?_, ?_, ?_, ?_⟩
  · intro hw hh
    have hwh : (decide (g.ww > 0) && decide (g.wh > 0)) = true := by
      simp [hw, hh]
    refine ⟨?_, gridPlace_length ts g, hcs.1, hcs.2.1, hcd.1, hcd.2 hn1, ?_⟩
    · simp only [normalize_group, if_neg h0, if_pos hbroken, hwh, if_true]
    · intro k hk
      have hkm : k < (List.enum ts).length := by
        rw [List.enum_length]; exact hk
      rw [gridPlace]
      rw [List.getElem?_map, List.getElem?_eq_getElem hkm, List.getElem_enum]
      have hcolsG : (if ceilSqrt ts.length = 0 then 1
          else ceilSqrt ts.length) = ceilSqrt ts.length := by
        rw [if_neg (by omega)]
      have hrowsG : (if (ts.length + ceilSqrt ts.length - 1) /
            ceilSqrt ts.length = 0 then 1
          else (ts.length + ceilSqrt ts.length - 1) / ceilSqrt ts.length) =
          (ts.length + ceilSqrt ts.length - 1) / ceilSqrt ts.length := by
        rw [if_neg (by omega)]
      simp only [Option.map_some, hcolsG, hrowsG]
      norm_num
  · simp only [normalize_group, if_neg h0, if_pos hbroken]
  · have hlen : (List.replicate 8 (⟨0, 0, 5, 5⟩ : RawT) ++
        [(⟨50, 60, 5, 5⟩ : RawT), (⟨70, 80, 5, 5⟩ : RawT)]).length = 10 := by
      decide
    simp only [normalize_group, gridPlace, hlen, ceilSqrt_10]
    decide
  · decide

/-- Witness for C4 at the 10-target group with 8 broken origins. -/
theorem c4_broken_grid_witness :
    normalize_group
        (List.replicate 8 (⟨0, 0, 5, 5⟩ : RawT) ++
          [(⟨50, 60, 5, 5⟩ : RawT), (⟨70, 80, 5, 5⟩ : RawT)])
        (some ⟨100, 100, 400, 400⟩) =
      [⟨0, 0, 5, 5, 172, 186, 172, 186⟩, ⟨0, 0, 5, 5, 257, 186, 257, 186⟩,
       ⟨0, 0, 5, 5, 342, 186, 342, 186⟩, ⟨0, 0, 5, 5, 427, 186, 427, 186⟩,
       ⟨0, 0, 5, 5, 172, 300, 172, 300⟩, ⟨0, 0, 5, 5, 257, 300, 257, 300⟩,
       ⟨0, 0, 5, 5, 342, 300, 342, 300⟩, ⟨0, 0, 5, 5, 427, 300, 427, 300⟩,
       ⟨50, 60, 5, 5, 172, 413, 172, 413⟩,
       ⟨70, 80, 5, 5, 257, 413, 257, 413⟩] :=
  (c4_broken_grid
    (List.replicate 8 (⟨0, 0, 5, 5⟩ : RawT) ++
      [(⟨50, 60, 5, 5⟩ : RawT), (⟨70, 80, 5, 5⟩ : RawT)])
    ⟨100, 100, 400, 400⟩ (by decide) (by decide)).2.2.1

/-! ## Helper lemmas: screen bounds and clamp -/

theorem boundsStep_fold (bs : List (List Char)) : ∀ a b : Int,
    bs.foldl boundsStep (a, b) =
      ((bs.map parseMonitor).foldl (fun acc r => max acc (r.1 + r.2.2.1)) a,
       (bs.map parseMonitor).foldl (fun acc r => max acc (r.2.1 + r.2.2.2)) b) := by
  induction bs with
  | nil => intro a b; rfl
  | cons c cs ih =>
    intro a b
    have hmax : ∀ u v : Int, (if v > u then v else u) = max u v := by
      intro u v
      split_ifs <;> omega
    rw [List.foldl_cons, List.map_cons, List.foldl_cons, List.foldl_cons]
    rw [show boundsStep (a, b) c =
        (max a ((parseMonitor c).1 + (parseMonitor c).2.2.1),
         max b ((parseMonitor c).2.1 + (parseMonitor c).2.2.2)) by
      simp only [boundsStep, parseMonitor, hmax]]
    rw [ih]

theorem clampPos_range (sw sh x y : Int) (hw : 1 ≤ sw) (hh : 1 ≤ sh) :
    0 ≤ (clampPos sw sh x y).1 ∧ (clampPos sw sh x y).1 ≤ sw - 1 ∧
    0 ≤ (clampPos sw sh x y).2 ∧ (clampPos sw sh x y).2 ≤ sh - 1 := by
  simp only [clampPos]
  split_ifs <;> simp_all <;> omega

theorem get_screen_bounds_pos (feed : Option (List Char)) :
    1 ≤ (get_screen_bounds feed).1 ∧ 1 ≤ (get_screen_bounds feed).2 := by
  cases feed with
  | none => exact ⟨by decide, by decide⟩
  | some j =>
    simp only [get_screen_bounds]
    constructor <;> split_ifs <;> omega

/-- C10: for every requested click point, the actuation step emits a
pointer position clamped into `[0, sw-1] × [0, sh-1]`, where the
screen bounds `(sw, sh)` are the union extent (max of `x+width`, max
of `y+height`) of the monitor feed's rectangles, an axis defaulting to
1920 resp. 1080 when the feed is absent or that axis yields no
positive extent (`specScreenBounds` states the spec's formula over the
parsed rectangles). -/
theorem c10_click_clamped (feed : Option (List Char)) (x y : Int) :
    (0 ≤ (do_click_pos feed x y).1 ∧
      (do_click_pos feed x y).1 ≤ (get_screen_bounds feed).1 - 1) ∧
    (0 ≤ (do_click_pos feed x y).2 ∧
      (do_click_pos feed x y).2 ≤ (get_screen_bounds feed).2 - 1) ∧
    get_screen_bounds feed =
      specScreenBounds (feed.map fun j => (splitBlocks j).map parseMonitor) := by
  obtain ⟨hw, hh⟩ := get_screen_bounds_pos feed
  have hclamp := clampPos_range (get_screen_bounds feed).1
    (get_screen_bounds feed).2 x y hw hh
  have hdo : do_click_pos feed x y =
      clampPos (get_screen_bounds feed).1 (get_screen_bounds feed).2 x y := rfl
  refine ⟨⟨by rw [hdo]; exact hclamp.1, by rw [hdo]; exact hclamp.2.1⟩,
          ⟨by rw [hdo]; exact hclamp.2.2.1, by rw [hdo]; exact hclamp.2.2.2⟩, ?_⟩
  cases feed with
  | none => rfl
  | some j =>
    simp only [get_screen_bounds, specScreenBounds, Option.map_some]
    rw [boundsStep_fold]
    simp

end Wlim
